import Mathlib

/-!
Verification of the candidate-enumeration core of `talenWF` (`src/talenWF/api.py`).

The Python source is shallowly embedded below:
* Python integers are `Int`; Python floor division `//` is `pydiv` (`Int.fdiv`).
* Python string slicing `s[a:b]` (step 1, with negative-index resolution and
  clamping) is `pySlice`; Python indexing `s[i]` (with negative wrap, `none`
  for an `IndexError`) is `pyIndex`.
* `findAll`, `COMPLEMENT`, the configuration of `FindTALTask.__init__`, the
  generator `_find_tal_pairs_for_seq` (both filtered and unfiltered modes),
  the record builder `_create_tal_pair` and the driver `run` are each
  translated definition by definition.
-/

/-- Python floor division `a // b` (floors toward negative infinity). -/
def pydiv (a b : Int) : Int := Int.fdiv a b

/-- The half-open integer interval `[a, b)`, i.e. Python `range(a, b)` for step 1. -/
def intRange (a b : Int) : List Int :=
  (List.range (b - a).toNat).map fun k : Nat => a + (k : Int)

/-- Resolution of one Python slice bound against a string of length `n`:
a negative bound is taken from the end and clamped below at 0, a non-negative
bound is clamped above at `n`. -/
def pyBound (n v : Int) : Int := if v < 0 then max (n + v) 0 else min v n

/-- Python slice `s[a:b]` with step 1: negative bounds are resolved relative to
the end of the string and both bounds are clamped into `[0, len]`. -/
def pySlice (s : List Char) (a b : Int) : List Char :=
  (s.drop (pyBound (s.length : Int) a).toNat).take
    ((pyBound (s.length : Int) b).toNat - (pyBound (s.length : Int) a).toNat)

/-- Resolution of a Python index against a string of length `n`: a negative
index wraps to `n + i`. -/
def pyIdx (n i : Int) : Int := if i < 0 then n + i else i

/-- Python indexing `s[i]`: a negative `i` wraps to `len + i`; an out-of-range
index (Python `IndexError`) is `none`. -/
def pyIndex (s : List Char) (i : Int) : Option Char :=
  if 0 ≤ pyIdx (s.length : Int) i ∧ pyIdx (s.length : Int) i < (s.length : Int) then
    s[(pyIdx (s.length : Int) i).toNat]?
  else none

/-- Embedding of `api.findAll(seq, sub, start, end)`:
`[i for i in range(start, end) if seq[i:i+len(sub)] == sub]`.
(The Python default `end=None` resolves to `len(seq)`; every call in the
source passes both bounds explicitly.) -/
def findAll (seq sub : List Char) (start stop : Int) : List Int :=
  (intRange start stop).filter fun i => pySlice seq i (i + (sub.length : Int)) == sub

/-- Embedding of the module-level dict `api.COMPLEMENT`; a key outside
`{T, A, C, G}` is `none` (a Python `KeyError`). -/
def COMPLEMENT : Char → Option Char
  | 'T' => some 'A'
  | 'A' => some 'T'
  | 'C' => some 'G'
  | 'G' => some 'C'
  | _ => none

/-- The configuration taken by `FindTALTask.__init__`.  The source's
`upstream_bases: List[str]` holds one-character strings (the CLI splits a
comma-separated list), embedded as `List Char`. -/
structure Config where
  min_spacer : Int
  max_spacer : Int
  array_min : Int
  array_max : Int
  filter_base : Option Int
  upstream_bases : List Char
deriving DecidableEq

/-- `self.max_dist = 2 * array_max + max_spacer` (from `__init__`). -/
def Config.max_dist (c : Config) : Int := 2 * c.array_max + c.max_spacer

/-- `self.min_dist = 2 * array_min + min_spacer` (from `__init__`). -/
def Config.min_dist (c : Config) : Int := 2 * c.array_min + c.min_spacer

/-- The spacer-length loop `range(self.min_spacer, self.max_spacer + 1)`. -/
def spacerList (c : Config) : List Int := intRange c.min_spacer (c.max_spacer + 1)

/-- One `(cut, up_pos, down_pos, spacer_length)` quadruple at which the
generator calls `self._create_tal_pair(cut, up_pos, down_pos, spacer_length)`.
The emitted record is `createTalPair` of the quadruple; the enumeration below
produces the quadruples in exactly the source's yield order. -/
structure TalQuad where
  cut : Int
  up : Int
  down : Int
  spacer : Int
deriving DecidableEq

/-- `tal1_start = up_pos + 1` (local of `_create_tal_pair`). -/
def tal1_start (up : Int) : Int := up + 1

/-- `tal1_end = cut - spacer_length//2` (local of `_create_tal_pair`). -/
def tal1_end (cut spacer : Int) : Int := cut - pydiv spacer 2

/-- `tal2_start = cut + (spacer_length+1)//2 - 1` (local of `_create_tal_pair`). -/
def tal2_start (cut spacer : Int) : Int := cut + pydiv (spacer + 1) 2 - 1

/-- `tal2_end = down_pos` (local of `_create_tal_pair`). -/
def tal2_end (down : Int) : Int := down

/-- The output dictionary built by `_create_tal_pair`.  Field order and names
follow the dict keys: `Sequence Name`, `Cut Site`, `TAL1 start`, `TAL2 start`,
`TAL1 length`, `TAL2 length`, `Spacer length`, `Spacer range`, `TAL1 RVDs`,
`TAL2 RVDs`, `Plus strand sequence`, `Unique RE sites in spacer`,
`% RVDs HD or NN/NH`. -/
structure TalPair where
  sequenceName : String
  cutSite : Int
  tal1Start : Int
  tal2StartReported : Int
  tal1Length : Nat
  tal2Length : Nat
  spacerLength : Int
  spacerRange : String
  tal1RVDs : String
  tal2RVDs : String
  plusStrand : String
  uniqueREsites : String
  pctRVDs : String
deriving DecidableEq

/-- Python `str(x)` for the char at a (possibly negative) index, used inside
the f-string of `_create_tal_pair`; the `IndexError` case is unreachable for
every quadruple the enumeration emits. -/
def pyIndexStr (s : List Char) (i : Int) : List Char :=
  match pyIndex s i with
  | some ch => [ch]
  | none => []

/-- Embedding of `FindTALTask._create_tal_pair(cut, up_pos, down_pos,
spacer_length)`; `seq` is `self.sequence`, `sid` is `self.sequence_id`. -/
def createTalPair (seq : List Char) (sid : String) (cut up down spacer : Int) : TalPair :=
  let t1s := tal1_start up
  let t1e := tal1_end cut spacer
  let t2s := tal2_start cut spacer
  let t2e := tal2_end down
  let tal1 := pySlice seq t1s t1e
  let tal2 := pySlice seq t2s t2e
  let sp := pySlice seq t1e t2s
  -- fields in dict-key order (see `TalPair`)
  ⟨sid, cut, t1s, t2e - 1, tal1.length, tal2.length, spacer,
    toString t1e ++ "-" ++ toString t2s, "", "",
    String.mk (pyIndexStr seq up) ++ " " ++ String.mk tal1 ++ " "
      ++ String.mk (sp.map Char.toLower) ++ " " ++ String.mk tal2 ++ " "
      ++ String.mk (pyIndexStr seq down),
    "", ""⟩

/-- The quadruples the spacer/cut loops emit for one accepted unfiltered
anchor pair `(t, j)`:
`for spacer_length in range(min_spacer, max_spacer+1):
   for cut in range(t + min_dist//2, j - min_dist//2): yield ...`. -/
def emitQuads (c : Config) (t j : Int) : List TalQuad :=
  (spacerList c).flatMap fun s =>
    (intRange (t + pydiv c.min_dist 2) (j - pydiv c.min_dist 2)).map fun cut =>
      ⟨cut, t, j, s⟩

/-- The unfiltered scan loop `for j in range(len(self.sequence))` of
`_find_tal_pairs_for_seq`, with the deque `upstream_q` passed explicitly as a
list `q` (append = push right, `popleft` while-loop = `dropWhile`, the
for-with-`break` over `list(upstream_q)` = `takeWhile`).  `j` is the current
index and `rest` is `sequence[j:]`. -/
def scanAux (c : Config) (ub db : Char) : Nat → List Char → List Int → List TalQuad
  | _, [], _ => []
  | j, ch :: rest, q =>
    if ch = ub then
      scanAux c ub db (j + 1) rest (q ++ [(j : Int)])
    else if ch = db then
      (((q.dropWhile fun t => t < (j : Int) - c.max_dist).takeWhile
            fun t => t ≤ (j : Int) - c.min_dist).flatMap
          fun t => emitQuads c t (j : Int))
        ++ scanAux c ub db (j + 1) rest (q.dropWhile fun t => t < (j : Int) - c.max_dist)
    else
      scanAux c ub db (j + 1) rest q

/-- Unfiltered mode for one upstream base: the scan starts at index 0 with an
empty deque. -/
def unfilteredQuads (seq : List Char) (c : Config) (ub db : Char) : List TalQuad :=
  scanAux c ub db 0 seq []

/-- Filtered mode (`self.filter_base is not None`) for one upstream base:
boundary guard, the two `findAll` windows, and the cross product with the
spacer loop.  The source's `assert self.sequence[up_pos] == upstream_base`
and the matching downstream assert always pass (proved below) and do not
change the yielded values. -/
def filteredQuads (seq : List Char) (c : Config) (fb : Int) (ub db : Char) : List TalQuad :=
  if fb - pydiv c.max_dist 2 < 0 ∨ fb + pydiv (c.max_dist + 1) 2 + 1 > (seq.length : Int) then
    []
  else
    (findAll seq [ub] (fb - pydiv c.max_dist 2 - 1) (fb - pydiv c.min_dist 2 - 1)).flatMap
      fun u =>
        (findAll seq [db] (fb + pydiv (c.min_dist + 1) 2)
            (fb + pydiv (c.max_dist + 1) 2 + 1)).flatMap
          fun d => (spacerList c).map fun s => ⟨fb, u, d, s⟩

/-- Quadruples for one upstream base, dispatching on `self.filter_base`. -/
def quadsForBase (seq : List Char) (c : Config) (ub db : Char) : List TalQuad :=
  match c.filter_base with
  | some fb => filteredQuads seq c fb ub db
  | none => unfilteredQuads seq c ub db

/-- The outer loop `for upstream_base in self.upstream_bases` of
`_find_tal_pairs_for_seq`, processed in order.  Each quadruple is tagged with
its `(upstream_base, downstream_base)` pair.  `downstream_base =
COMPLEMENT[upstream_base]` raises `KeyError` for an entry outside
`{A, C, G, T}`; the embedding returns the quadruples yielded before that point
together with `some msg` for the raised error (`none` = ran to completion). -/
def talEnumAux (seq : List Char) (c : Config) :
    List Char → List (Char × Char × TalQuad) × Option String
  | [] => ([], none)
  | b :: rest =>
    match COMPLEMENT b with
    | none => ([], some "KeyError")
    | some d =>
      let here := (quadsForBase seq c b d).map fun q => (b, d, q)
      let res := talEnumAux seq c rest
      (here ++ res.1, res.2)

/-- Full materialization of the generator `_find_tal_pairs_for_seq`. -/
def talEnum (seq : List Char) (c : Config) : List (Char × Char × TalQuad) × Option String :=
  talEnumAux seq c c.upstream_bases

/-- The record sequence the generator yields (each quadruple passed through
`_create_tal_pair`), plus the error flag. -/
def talRecords (seq : List Char) (sid : String) (c : Config) :
    List TalPair × Option String :=
  ((talEnum seq c).1.map fun p => createTalPair seq sid p.2.2.cut p.2.2.up p.2.2.down p.2.2.spacer,
    (talEnum seq c).2)

/-! Basic lemmas about the Python primitives. -/

/-- Python `// 2` agrees with Euclidean division by 2 (the divisor is positive). -/
theorem pydiv_two_eq (a : Int) : pydiv a 2 = a / 2 :=
  Int.fdiv_eq_ediv a (by norm_num)

/-- Membership in a Python `range`. -/
theorem mem_intRange {i a b : Int} : i ∈ intRange a b ↔ a ≤ i ∧ i < b := by
  unfold intRange
  simp only [List.mem_map, List.mem_range]
  constructor
  · rintro ⟨k, hk, rfl⟩
    omega
  · intro h
    exact ⟨(i - a).toNat, by omega, by omega⟩

/-- A take-after-drop slice equal to a singleton pins down one character of the
underlying list. -/
theorem slice_singleton {s : List Char} {lo k : Nat} {c : Char}
    (h : (s.drop lo).take k = [c]) : s[lo]? = some c ∧ lo < s.length ∧ 0 < k := by
  have hk : 0 < k := by
    rcases Nat.eq_zero_or_pos k with rfl | hk
    · simp at h
    · exact hk
  have h0 : ((s.drop lo).take k)[0]? = some c := by rw [h]; rfl
  rw [List.getElem?_take, if_pos hk] at h0
  rw [List.getElem?_drop] at h0
  have hlt : lo < s.length := by
    have := (List.getElem?_eq_some_iff.mp (by simpa using h0)).1
    omega
  exact ⟨by simpa using h0, hlt, hk⟩

/-- A singleton Python slice `s[i:i+1] == [c]` implies Python indexing `s[i]`
yields `c` (covering the negative-index wrap). -/
theorem pySlice_single {s : List Char} {i : Int} {c : Char}
    (h : pySlice s i (i + 1) = [c]) : pyIndex s i = some c := by
  unfold pySlice at h
  obtain ⟨h0, hlt, hk⟩ := slice_singleton h
  unfold pyIndex pyIdx
  unfold pyBound at h0 hlt hk
  by_cases hi : i < 0
  · rw [if_pos hi] at h0 hlt hk ⊢
    by_cases hi1 : i + 1 < 0
    · rw [if_pos hi1] at hk
      have hni : 0 ≤ (s.length : Int) + i := by omega
      have hmax : max ((s.length : Int) + i) 0 = (s.length : Int) + i := by omega
      rw [hmax] at h0
      rw [if_pos (by omega : (0:Int) ≤ (s.length : Int) + i ∧
        (s.length : Int) + i < (s.length : Int))]
      exact h0
    · exfalso
      rw [if_neg hi1] at hk
      omega
  · rw [if_neg hi] at h0 hlt hk ⊢
    have hin : i < (s.length : Int) := by omega
    have hmin : min i (s.length : Int) = i := by omega
    rw [hmin] at h0
    rw [if_pos (by omega : (0:Int) ≤ i ∧ i < (s.length : Int))]
    exact h0

/-- A non-negative in-range index: Python indexing agrees with list lookup. -/
theorem pyIndex_of_getElem {s : List Char} {i : Int} {c : Char}
    (h0 : 0 ≤ i) (h : s[i.toNat]? = some c) : pyIndex s i = some c := by
  have hlt : i.toNat < s.length := (List.getElem?_eq_some_iff.mp h).1
  unfold pyIndex pyIdx
  rw [if_neg (by omega : ¬ i < 0), if_pos (by omega : (0:Int) ≤ i ∧ i < (s.length : Int))]
  exact h

/-- What membership in a single-character `findAll` search tells us. -/
theorem mem_findAll_single {seq : List Char} {c : Char} {a b i : Int}
    (h : i ∈ findAll seq [c] a b) :
    a ≤ i ∧ i < b ∧ pyIndex seq i = some c := by
  unfold findAll at h
  rw [List.mem_filter] at h
  obtain ⟨hr, he⟩ := h
  rw [mem_intRange] at hr
  have hsl : pySlice seq i (i + 1) = [c] := by
    have := of_decide_eq_true (by simpa using he)
    simpa using this
  exact ⟨hr.1, hr.2, pySlice_single hsl⟩

/-- In a strictly sorted queue, every element surviving the front eviction
`while q and q[0] < m: popleft()` is at least `m`. -/
theorem sorted_dropWhile_ge {m : Int} :
    ∀ {l : List Int}, l.Pairwise (· < ·) →
      ∀ x ∈ l.dropWhile (fun t => t < m), m ≤ x := by
  intro l
  induction l with
  | nil => intro _ x hx; simp [List.dropWhile] at hx
  | cons a t ih =>
    intro hp x hx
    rw [List.dropWhile_cons] at hx
    by_cases ha : a < m
    · rw [if_pos (by simpa using ha)] at hx
      exact ih hp.of_cons x hx
    · rw [if_neg (by simpa using ha)] at hx
      rcases List.mem_cons.mp hx with rfl | hx
      · omega
      · have := List.rel_of_pairwise_cons hp hx
        omega

/-- Bounds carried by every quadruple of the inner spacer/cut loops. -/
theorem mem_emitQuads {c : Config} {t j : Int} {qd : TalQuad} (h : qd ∈ emitQuads c t j) :
    c.min_spacer ≤ qd.spacer ∧ qd.spacer ≤ c.max_spacer ∧
    t + pydiv c.min_dist 2 ≤ qd.cut ∧ qd.cut < j - pydiv c.min_dist 2 ∧
    qd.up = t ∧ qd.down = j := by
  unfold emitQuads at h
  rw [List.mem_flatMap] at h
  obtain ⟨s, hs, h⟩ := h
  rw [List.mem_map] at h
  obtain ⟨cut, hc, rfl⟩ := h
  rw [spacerList, mem_intRange] at hs
  rw [mem_intRange] at hc
  refine ⟨hs.1, ?_, hc.1, hc.2, rfl, rfl⟩
  show s ≤ c.max_spacer
  omega

/-- Invariant satisfied by every quadruple the unfiltered scan emits:
in-range anchors carrying the right bases, anchor distance within
`[min_dist, max_dist]`, spacer within `[min_spacer, max_spacer]`, and the cut
inside `[up + min_dist//2, down - min_dist//2)`. -/
def ScanProp (c : Config) (ub db : Char) (seq : List Char) (qd : TalQuad) : Prop :=
  0 ≤ qd.up ∧ 0 ≤ qd.down ∧ qd.down < (seq.length : Int) ∧
  seq[qd.up.toNat]? = some ub ∧ seq[qd.down.toNat]? = some db ∧
  c.min_dist ≤ qd.down - qd.up ∧ qd.down - qd.up ≤ c.max_dist ∧
  c.min_spacer ≤ qd.spacer ∧ qd.spacer ≤ c.max_spacer ∧
  qd.up + pydiv c.min_dist 2 ≤ qd.cut ∧ qd.cut < qd.down - pydiv c.min_dist 2

/-- Main invariant of the unfiltered scan loop: if the queue is strictly
sorted and holds only upstream-base positions below the current index, every
emitted quadruple satisfies `ScanProp`. -/
theorem scanAux_mem (c : Config) (ub db : Char) (seq : List Char) :
    ∀ (rest : List Char) (j : Nat) (q : List Int),
      seq.drop j = rest →
      q.Pairwise (· < ·) →
      (∀ t ∈ q, 0 ≤ t ∧ t < (j : Int) ∧ seq[t.toNat]? = some ub) →
      ∀ qd ∈ scanAux c ub db j rest q, ScanProp c ub db seq qd := by
  intro rest
  induction rest with
  | nil => intro j q _ _ _ qd hqd; simp [scanAux] at hqd
  | cons ch rest ih =>
    intro j q hdrop hsort hq qd hqd
    have hj : seq[j]? = some ch := by
      have h0 := List.getElem?_drop seq j 0
      rw [hdrop] at h0
      simpa using h0.symm
    have hjlen : j < seq.length := (List.getElem?_eq_some_iff.mp hj).1
    have hdrop' : seq.drop (j + 1) = rest := by
      have h1 := List.drop_drop 1 j seq
      rw [hdrop] at h1
      simpa using h1.symm
    rw [scanAux] at hqd
    by_cases hub : ch = ub
    · rw [if_pos hub] at hqd
      refine ih (j + 1) (q ++ [(j : Int)]) hdrop' ?_ ?_ qd hqd
      · rw [List.pairwise_append]
        refine ⟨hsort, List.pairwise_singleton _ _, ?_⟩
        intro a ha b hb
        rcases List.mem_singleton.mp hb with rfl
        exact (hq a ha).2.1
      · intro t ht
        rcases List.mem_append.mp ht with ht | ht
        · obtain ⟨h1, h2, h3⟩ := hq t ht
          exact ⟨h1, by omega, h3⟩
        · rcases List.mem_singleton.mp ht with rfl
          refine ⟨by omega, by omega, ?_⟩
          rw [Int.toNat_natCast, ← hub]
          exact hj
    · rw [if_neg hub] at hqd
      by_cases hdb : ch = db
      · rw [if_pos hdb] at hqd
        have hq1sub : ∀ t ∈ q.dropWhile (fun t => t < (j : Int) - c.max_dist), t ∈ q :=
          fun t ht => (List.dropWhile_sublist _).subset ht
        have hq1sort : (q.dropWhile (fun t => t < (j : Int) - c.max_dist)).Pairwise (· < ·) :=
          List.Pairwise.sublist (List.dropWhile_sublist _) hsort
        rcases List.mem_append.mp hqd with hmem | hmem
        · rw [List.mem_flatMap] at hmem
          obtain ⟨t, ht, hin⟩ := hmem
          have htq1 : t ∈ q.dropWhile (fun t => t < (j : Int) - c.max_dist) :=
            (List.takeWhile_sublist _).subset ht
          have htle : t ≤ (j : Int) - c.min_dist := by
            have := List.mem_takeWhile_imp ht
            simpa using this
          have htge : (j : Int) - c.max_dist ≤ t := sorted_dropWhile_ge hsort t htq1
          obtain ⟨h1, h2, h3⟩ := hq t (hq1sub t htq1)
          obtain ⟨hs1, hs2, hc1, hc2, hup, hdown⟩ := mem_emitQuads hin
          refine ⟨?_, ?_, ?_, ?_, ?_, ?_, ?_, ?_, ?_, ?_, ?_⟩
          · rw [hup]; exact h1
          · rw [hdown]; omega
          · rw [hdown]; exact_mod_cast hjlen
          · rw [hup]; exact h3
          · rw [hdown, Int.toNat_natCast, ← hdb]; exact hj
          · rw [hup, hdown]; omega
          · rw [hup, hdown]; omega
          · exact hs1
          · exact hs2
          · rw [hup]; exact hc1
          · rw [hdown]; exact hc2
        · refine ih (j + 1) _ hdrop' hq1sort ?_ qd hmem
          intro t ht
          obtain ⟨h1, h2, h3⟩ := hq t (hq1sub t ht)
          exact ⟨h1, by omega, h3⟩
      · rw [if_neg hdb] at hqd
        refine ih (j + 1) q hdrop' hsort ?_ qd hqd
        intro t ht
        obtain ⟨h1, h2, h3⟩ := hq t ht
        exact ⟨h1, by omega, h3⟩

/-- Every quadruple of the unfiltered mode satisfies the scan invariant. -/
theorem unfilteredQuads_mem {seq : List Char} {c : Config} {ub db : Char} {qd : TalQuad}
    (h : qd ∈ unfilteredQuads seq c ub db) : ScanProp c ub db seq qd :=
  scanAux_mem c ub db seq seq 0 [] (by simp) (List.Pairwise.nil) (by simp) qd h

/-- Decomposition of membership in the filtered mode. -/
theorem mem_filteredQuads {seq : List Char} {c : Config} {fb : Int} {ub db : Char}
    {qd : TalQuad} (h : qd ∈ filteredQuads seq c fb ub db) :
    ¬(fb - pydiv c.max_dist 2 < 0 ∨
        fb + pydiv (c.max_dist + 1) 2 + 1 > (seq.length : Int)) ∧
    qd.cut = fb ∧
    qd.up ∈ findAll seq [ub] (fb - pydiv c.max_dist 2 - 1) (fb - pydiv c.min_dist 2 - 1) ∧
    qd.down ∈ findAll seq [db] (fb + pydiv (c.min_dist + 1) 2)
      (fb + pydiv (c.max_dist + 1) 2 + 1) ∧
    c.min_spacer ≤ qd.spacer ∧ qd.spacer ≤ c.max_spacer := by
  unfold filteredQuads at h
  split at h
  · simp at h
  · rename_i hguard
    rw [List.mem_flatMap] at h
    obtain ⟨u, hu, h⟩ := h
    rw [List.mem_flatMap] at h
    obtain ⟨d, hd, h⟩ := h
    rw [List.mem_map] at h
    obtain ⟨s, hs, rfl⟩ := h
    rw [spacerList, mem_intRange] at hs
    refine ⟨hguard, rfl, hu, hd, hs.1, ?_⟩
    show s ≤ c.max_spacer
    omega

/-- Decomposition of membership in the full enumeration: the quadruple comes
from one upstream base of the configuration, paired with its complement. -/
theorem mem_talEnumAux {seq : List Char} {c : Config} {ub db : Char} {qd : TalQuad} :
    ∀ {bs : List Char}, (ub, db, qd) ∈ (talEnumAux seq c bs).1 →
      ub ∈ bs ∧ COMPLEMENT ub = some db ∧ qd ∈ quadsForBase seq c ub db := by
  intro bs
  induction bs with
  | nil => intro h; simp [talEnumAux] at h
  | cons b rest ih =>
    intro h
    rw [talEnumAux] at h
    cases hb : COMPLEMENT b with
    | none => rw [hb] at h; simp at h
    | some d =>
      rw [hb] at h
      simp only [List.mem_append, List.mem_map] at h
      rcases h with ⟨q, hq, heq⟩ | h
      · simp only [Prod.mk.injEq] at heq
        obtain ⟨rfl, rfl, rfl⟩ := heq
        exact ⟨List.mem_cons_self _ _, hb, hq⟩
      · obtain ⟨h1, h2, h3⟩ := ih h
        exact ⟨List.mem_cons_of_mem _ h1, h2, h3⟩

/-- Same decomposition phrased on `talEnum`. -/
theorem mem_talEnum {seq : List Char} {c : Config} {ub db : Char} {qd : TalQuad}
    (h : (ub, db, qd) ∈ (talEnum seq c).1) :
    ub ∈ c.upstream_bases ∧ COMPLEMENT ub = some db ∧ qd ∈ quadsForBase seq c ub db :=
  mem_talEnumAux h

/-- Dispatch equation of `quadsForBase` in unfiltered mode. -/
theorem quadsForBase_none {seq : List Char} {c : Config} {ub db : Char}
    (hf : c.filter_base = none) :
    quadsForBase seq c ub db = unfilteredQuads seq c ub db := by
  unfold quadsForBase
  rw [hf]

/-- Dispatch equation of `quadsForBase` in filtered mode. -/
theorem quadsForBase_some {seq : List Char} {c : Config} {ub db : Char} {fb : Int}
    (hf : c.filter_base = some fb) :
    quadsForBase seq c ub db = filteredQuads seq c fb ub db := by
  unfold quadsForBase
  rw [hf]

/-- The two floor-halves of an integer recombine: `m//2 + (m+1)//2 = m`. -/
theorem pydiv_two_add (m : Int) : pydiv m 2 + pydiv (m + 1) 2 = m := by
  rw [pydiv_two_eq, pydiv_two_eq]
  omega

/-- The length of an in-bounds Python slice is the difference of its bounds. -/
theorem pySlice_length_of_bounds {s : List Char} {a b : Int}
    (h0 : 0 ≤ a) (hab : a ≤ b) (hb : b ≤ (s.length : Int)) :
    ((pySlice s a b).length : Int) = b - a := by
  unfold pySlice pyBound
  rw [if_neg (by omega : ¬ a < 0), if_neg (by omega : ¬ b < 0)]
  rw [List.length_take, List.length_drop]
  omega

/-- A constant-empty `flatMap` is empty. -/
theorem flatMap_nil_fun {α β : Type} : ∀ l : List α, (l.flatMap fun _ => ([] : List β)) = [] := by
  intro l
  induction l with
  | nil => rfl
  | cons a t ih => simp [ih]

/-- An inverted spacer range empties the spacer loop. -/
theorem spacerList_nil {c : Config} (h : c.max_spacer < c.min_spacer) :
    spacerList c = [] := by
  unfold spacerList intRange
  have h0 : (c.max_spacer + 1 - c.min_spacer).toNat = 0 := by omega
  rw [h0]
  rfl

/-- An empty spacer loop emits no quadruple for an anchor pair. -/
theorem emitQuads_nil {c : Config} {t j : Int} (h : spacerList c = []) :
    emitQuads c t j = [] := by
  unfold emitQuads
  rw [h]
  rfl

/-- With an empty spacer loop the whole unfiltered scan emits nothing. -/
theorem scanAux_spacer_nil {c : Config} {ub db : Char} (h : spacerList c = []) :
    ∀ (rest : List Char) (j : Nat) (q : List Int), scanAux c ub db j rest q = [] := by
  intro rest
  induction rest with
  | nil => intro j q; rfl
  | cons ch rest ih =>
    intro j q
    rw [scanAux]
    by_cases hub : ch = ub
    · rw [if_pos hub]
      exact ih _ _
    · rw [if_neg hub]
      by_cases hdb : ch = db
      · rw [if_pos hdb, ih _ _]
        have he : (fun t => emitQuads c t (j : Int)) = fun _ : Int => ([] : List TalQuad) :=
          funext fun t => emitQuads_nil h
        rw [he, flatMap_nil_fun]
        rfl
      · rw [if_neg hdb]
        exact ih _ _

/-- With an empty spacer loop the filtered mode emits nothing. -/
theorem filteredQuads_spacer_nil {seq : List Char} {c : Config} {fb : Int} {ub db : Char}
    (h : spacerList c = []) : filteredQuads seq c fb ub db = [] := by
  unfold filteredQuads
  split
  · rfl
  · rw [h]
    simp only [List.map_nil]
    rw [flatMap_nil_fun, flatMap_nil_fun]

/-- If every valid base contributes no quadruple, the enumeration over a list
of valid bases is empty and error-free. -/
theorem talEnumAux_nil {seq : List Char} {c : Config}
    (hbase : ∀ b d, COMPLEMENT b = some d → quadsForBase seq c b d = []) :
    ∀ bs : List Char, (∀ b ∈ bs, (COMPLEMENT b).isSome) →
      talEnumAux seq c bs = ([], none) := by
  intro bs
  induction bs with
  | nil => intro _; rfl
  | cons b rest ih =>
    intro hv
    obtain ⟨d, hd⟩ := Option.isSome_iff_exists.mp (hv b (List.mem_cons_self _ _))
    rw [talEnumAux, hd]
    simp only
    rw [hbase b d hd, ih fun x hx => hv x (List.mem_cons_of_mem _ hx)]
    rfl

/-- An upstream-bases entry outside the complement table makes the
enumeration end in a raised `KeyError`. -/
theorem talEnumAux_err {seq : List Char} {c : Config} :
    ∀ bs : List Char, (∃ b ∈ bs, COMPLEMENT b = none) →
      (talEnumAux seq c bs).2.isSome := by
  intro bs
  induction bs with
  | nil => rintro ⟨b, hb, -⟩; simp at hb
  | cons b rest ih =>
    rintro ⟨x, hx, hxc⟩
    rw [talEnumAux]
    cases hb : COMPLEMENT b with
    | none => rfl
    | some d =>
      simp only
      rcases List.mem_cons.mp hx with rfl | hx
      · rw [hb] at hxc
        cases hxc
      · exact ih ⟨x, hx, hxc⟩

/-! Concrete example inputs used by witnesses and counterexamples. -/

/-- Unfiltered configuration with `min_dist = max_dist = 3`. -/
def cfgBoundary : Config := ⟨1, 1, 1, 1, none, ['T']⟩

/-- Filtered configuration with `min_dist = 3`, `max_dist = 5`, `filter_base = 3`. -/
def cfgFiltered : Config := ⟨1, 1, 1, 2, some 3, ['T']⟩

/-- Unfiltered configuration with a wide spacer range: `min_spacer = 1 ≤
max_spacer = 100` and `array_min = array_max = 1`, hence well formed. -/
def cfgWide : Config := ⟨1, 100, 1, 1, none, ['T']⟩

/-- Configuration with inverted array bounds (`array_min = 2 > array_max = 1`)
but valid spacer bounds, giving `min_dist = 4 < max_dist = 5`. -/
def cfgArrInv : Config := ⟨0, 3, 2, 1, none, ['T']⟩

/-- Configuration whose upstream-bases list holds a symbol outside `{A,C,G,T}`. -/
def cfgBadBase : Config := ⟨14, 18, 14, 18, none, ['N']⟩

/-- Configuration with an inverted spacer range (`min_spacer = 5 > max_spacer = 4`). -/
def cfgSpacerInv : Config := ⟨5, 4, 1, 1, none, ['T']⟩

/-- Configuration with an even `min_dist = 4` equal to `max_dist`. -/
def cfgEven : Config := ⟨2, 2, 1, 1, none, ['T']⟩

/-- Filtered configuration whose `filter_base = 0` sits at the left edge. -/
def cfgFilteredEdge : Config := ⟨1, 1, 1, 2, some 0, ['T']⟩

/-! The claims. -/

/-- C1: in unfiltered mode (`filter_base is None`), every record emitted by
the enumeration satisfies `min_dist ≤ down_pos - up_pos ≤ max_dist` and
`min_spacer ≤ spacer_length ≤ max_spacer`, where `min_dist = 2*array_min +
min_spacer` and `max_dist = 2*array_max + max_spacer` (the latter two hold by
definition of `Config.min_dist`/`Config.max_dist`).  The companion witness
exhibits an upstream anchor retained at exactly `j - max_dist` and emitted,
which is what the strict `<` eviction guarantees. -/
theorem C1_unfiltered_invariants (seq : List Char) (c : Config)
    (hf : c.filter_base = none) (ub db : Char) (qd : TalQuad)
    (h : (ub, db, qd) ∈ (talEnum seq c).1) :
    c.min_dist ≤ qd.down - qd.up ∧ qd.down - qd.up ≤ c.max_dist ∧
    c.min_spacer ≤ qd.spacer ∧ qd.spacer ≤ c.max_spacer := by
  obtain ⟨-, -, hq⟩ := mem_talEnum h
  rw [quadsForBase_none hf] at hq
  obtain ⟨-, -, -, -, -, h5, h6, h7, h8, -, -⟩ := unfilteredQuads_mem hq
  exact ⟨h5, h6, h7, h8⟩

/-- Witness for C1, at the strict-eviction boundary: on `"TCCA"` with
`min_dist = max_dist = 3`, the upstream anchor 0 sits exactly at `j - max_dist`
for the downstream base at `j = 3`, is retained, and the pair is emitted with
anchor distance exactly `max_dist`; the theorem's bounds hold there. -/
theorem C1_unfiltered_invariants_witness :
    cfgBoundary.filter_base = none ∧
    ('T', 'A', (⟨1, 0, 3, 1⟩ : TalQuad)) ∈ (talEnum "TCCA".toList cfgBoundary).1 ∧
    (3 : Int) - 0 = cfgBoundary.max_dist ∧
    (cfgBoundary.min_dist ≤ (3 : Int) - 0 ∧ (3 : Int) - 0 ≤ cfgBoundary.max_dist ∧
      cfgBoundary.min_spacer ≤ (1 : Int) ∧ (1 : Int) ≤ cfgBoundary.max_spacer) :=
  ⟨rfl, by decide, by decide,
    C1_unfiltered_invariants "TCCA".toList cfgBoundary rfl 'T' 'A' ⟨1, 0, 3, 1⟩ (by decide)⟩

/-- C2 counterexample: with `min_dist = 3`, `max_dist = 5`, `filter_base = 3`
on `"TCCCCCA"`, filtered mode emits the anchors `up_pos = 0`, `down_pos = 6`;
their distance 6 exceeds `max_dist = 5`, refuting the claimed
`down_pos - up_pos ≤ max_dist` invariant for filtered mode. -/
theorem C2_counterexample :
    ('T', 'A', (⟨3, 0, 6, 1⟩ : TalQuad)) ∈ (talEnum "TCCCCCA".toList cfgFiltered).1 ∧
    ¬((6 : Int) - 0 ≤ cfgFiltered.max_dist) :=
  ⟨by decide, by decide⟩

/-- C2 amended: every record emitted when `filter_base` is set has its cut
site equal to `filter_base`, spacer length in `[min_spacer, max_spacer]`,
`up_pos` drawn from the upstream-base occurrences in
`[filter_base - max_dist//2 - 1, filter_base - min_dist//2 - 1)` and
`down_pos` from the downstream-base occurrences in
`[filter_base + (min_dist+1)//2, filter_base + (max_dist+1)//2 + 1)`, and its
anchor distance satisfies `min_dist ≤ down_pos - up_pos ≤ max_dist + 1`; the
upper bound `max_dist` claimed by the spec can be exceeded by exactly one at
the window boundary. -/
theorem C2_filtered_subset_amended (seq : List Char) (c : Config) (fb : Int)
    (hf : c.filter_base = some fb) (ub db : Char) (qd : TalQuad)
    (h : (ub, db, qd) ∈ (talEnum seq c).1) :
    qd.cut = fb ∧
    c.min_dist ≤ qd.down - qd.up ∧ qd.down - qd.up ≤ c.max_dist + 1 ∧
    c.min_spacer ≤ qd.spacer ∧ qd.spacer ≤ c.max_spacer ∧
    qd.up ∈ findAll seq [ub] (fb - pydiv c.max_dist 2 - 1) (fb - pydiv c.min_dist 2 - 1) ∧
    qd.down ∈ findAll seq [db] (fb + pydiv (c.min_dist + 1) 2)
      (fb + pydiv (c.max_dist + 1) 2 + 1) := by
  obtain ⟨-, -, hq⟩ := mem_talEnum h
  rw [quadsForBase_some hf] at hq
  obtain ⟨hg, hcut, hu, hd, hs1, hs2⟩ := mem_filteredQuads hq
  obtain ⟨hu1, hu2, -⟩ := mem_findAll_single hu
  obtain ⟨hd1, hd2, -⟩ := mem_findAll_single hd
  have hmin := pydiv_two_add c.min_dist
  have hmax := pydiv_two_add c.max_dist
  exact ⟨hcut, by omega, by omega, hs1, hs2, hu, hd⟩

/-- Witness for C2 (amended) on the boundary record of the counterexample:
all amended bounds hold at the emitted quadruple `(3, 0, 6, 1)`. -/
theorem C2_filtered_subset_amended_witness :
    cfgFiltered.filter_base = some 3 ∧
    ((⟨3, 0, 6, 1⟩ : TalQuad).cut = 3 ∧
      cfgFiltered.min_dist ≤ (⟨3, 0, 6, 1⟩ : TalQuad).down - (⟨3, 0, 6, 1⟩ : TalQuad).up ∧
      (⟨3, 0, 6, 1⟩ : TalQuad).down - (⟨3, 0, 6, 1⟩ : TalQuad).up ≤ cfgFiltered.max_dist + 1 ∧
      cfgFiltered.min_spacer ≤ (⟨3, 0, 6, 1⟩ : TalQuad).spacer ∧
      (⟨3, 0, 6, 1⟩ : TalQuad).spacer ≤ cfgFiltered.max_spacer ∧
      (⟨3, 0, 6, 1⟩ : TalQuad).up ∈ findAll "TCCCCCA".toList ['T']
        (3 - pydiv cfgFiltered.max_dist 2 - 1) (3 - pydiv cfgFiltered.min_dist 2 - 1) ∧
      (⟨3, 0, 6, 1⟩ : TalQuad).down ∈ findAll "TCCCCCA".toList ['A']
        (3 + pydiv (cfgFiltered.min_dist + 1) 2) (3 + pydiv (cfgFiltered.max_dist + 1) 2 + 1)) :=
  ⟨rfl, C2_filtered_subset_amended "TCCCCCA".toList cfgFiltered 3 rfl 'T' 'A'
    ⟨3, 0, 6, 1⟩ (by decide)⟩

/-- C3: for every quadruple, the record builder computes
`tal1_start = up_pos + 1`, `tal1_end = cut - spacer_length//2`,
`tal2_start = cut + (spacer_length+1)//2 - 1`, `tal2_end = down_pos`; the
reported `TAL1 start` field is `tal1_start`, the `Spacer range` field is
formatted from `tal1_end` and `tal2_start`, and the reported `TAL2 start`
field equals `tal2_end - 1` (the downstream anchor index) — which, as the
last conjunct shows on a concrete input, is not `tal2_start`. -/
theorem C3_record_builder_fields (seq : List Char) (sid : String)
    (cut up down spacer : Int) :
    (createTalPair seq sid cut up down spacer).tal1Start = up + 1 ∧
    tal1_end cut spacer = cut - pydiv spacer 2 ∧
    tal2_start cut spacer = cut + pydiv (spacer + 1) 2 - 1 ∧
    tal2_end down = down ∧
    (createTalPair seq sid cut up down spacer).tal2StartReported = tal2_end down - 1 ∧
    (createTalPair seq sid cut up down spacer).spacerRange =
      toString (tal1_end cut spacer) ++ "-" ++ toString (tal2_start cut spacer) ∧
    (createTalPair [] "x" 10 0 20 4).tal2StartReported ≠ tal2_start 10 4 :=
  ⟨rfl, rfl, rfl, rfl, rfl, rfl, by decide⟩

/-- C4 counterexample: the claim fails on two of its three conditions.  With
inverted array bounds (`array_min = 2 > array_max = 1`) but `min_dist = 4 <
max_dist = 5`, the enumeration on `"TCCCCA"` emits records — output is not
empty.  With upstream base `N` outside `{A,C,G,T}`, the enumeration raises a
`KeyError` instead of silently producing empty output. -/
theorem C4_counterexample :
    (cfgArrInv.array_min > cfgArrInv.array_max ∧
      (talEnum "TCCCCA".toList cfgArrInv).1 ≠ []) ∧
    ((talEnum "A".toList cfgBadBase).2 ≠ none) :=
  ⟨⟨by decide, by decide⟩, by decide⟩

/-- C4 amended: if every upstream-bases entry is in `{A,C,G,T}` and
`min_spacer > max_spacer`, the enumeration silently produces empty output
with no error; an upstream-bases entry outside `{A,C,G,T}` instead raises a
`KeyError` when the generator is advanced.  (`array_min > array_max` alone
does not force empty output, as the counterexample shows.) -/
theorem C4_invalid_config_amended :
    (∀ (seq : List Char) (c : Config),
      (∀ b ∈ c.upstream_bases, (COMPLEMENT b).isSome) →
      c.max_spacer < c.min_spacer →
      talEnum seq c = ([], none)) ∧
    (∀ (seq : List Char) (c : Config),
      (∃ b ∈ c.upstream_bases, COMPLEMENT b = none) →
      (talEnum seq c).2.isSome) := by
  constructor
  · intro seq c hv hsp
    refine talEnumAux_nil ?_ c.upstream_bases hv
    intro b d hd
    unfold quadsForBase
    cases hfb : c.filter_base with
    | some fb => exact filteredQuads_spacer_nil (spacerList_nil hsp)
    | none => exact scanAux_spacer_nil (spacerList_nil hsp) _ _ _
  · intro seq c hx
    exact talEnumAux_err c.upstream_bases hx

/-- Witness for C4 (amended): the inverted spacer range on `"TCCA"` yields the
empty, error-free output, and the invalid base `N` yields a raised error. -/
theorem C4_invalid_config_amended_witness :
    talEnum "TCCA".toList cfgSpacerInv = ([], none) ∧
    (talEnum "A".toList cfgBadBase).2.isSome :=
  ⟨C4_invalid_config_amended.1 "TCCA".toList cfgSpacerInv (by decide) (by decide),
    C4_invalid_config_amended.2 "A".toList cfgBadBase ⟨'N', by decide, by decide⟩⟩

/-- C5 counterexample: under the well-formed configuration `cfgWide`
(`array_min = array_max = 1`, `min_spacer = 1 ≤ max_spacer = 100`) on
`"TCCA"`, the quadruple `(cut 1, up 0, down 3, spacer 100)` is emitted; its
record reports `TAL1 length = 0` (the slice clamps to empty) while
`tal1_end - tal1_start = -50`, refuting both the claimed equality
`TAL1 length = tal1_end - tal1_start` and the claimed non-negativity of that
difference. -/
theorem C5_counterexample :
    cfgWide.array_min ≤ cfgWide.array_max ∧ cfgWide.min_spacer ≤ cfgWide.max_spacer ∧
    ('T', 'A', (⟨1, 0, 3, 100⟩ : TalQuad)) ∈ (talEnum "TCCA".toList cfgWide).1 ∧
    ((createTalPair "TCCA".toList "id" 1 0 3 100).tal1Length : Int) ≠
      tal1_end 1 100 - tal1_start 0 ∧
    tal1_end 1 100 - tal1_start 0 < 0 :=
  ⟨by decide, by decide, by decide, by decide, by decide⟩

/-- C5 amended: the record's `TAL1 length` and `TAL2 length` fields equal the
lengths of the clamped Python slices `bases[tal1_start:tal1_end]` and
`bases[tal2_start:tal2_end]` — hence are always ≥ 0 — and they equal the
differences `tal1_end - tal1_start` resp. `tal2_end - tal2_start` whenever
those slice bounds are ordered and within the sequence; the unconditional
equality (and non-negativity of the differences) claimed by the spec fails
when a slice clamps, even under a well-formed configuration. -/
theorem C5_lengths_amended (seq : List Char) (sid : String) (cut up down spacer : Int) :
    (createTalPair seq sid cut up down spacer).tal1Length =
      (pySlice seq (tal1_start up) (tal1_end cut spacer)).length ∧
    (createTalPair seq sid cut up down spacer).tal2Length =
      (pySlice seq (tal2_start cut spacer) (tal2_end down)).length ∧
    (0 ≤ tal1_start up → tal1_start up ≤ tal1_end cut spacer →
      tal1_end cut spacer ≤ (seq.length : Int) →
      ((createTalPair seq sid cut up down spacer).tal1Length : Int) =
        tal1_end cut spacer - tal1_start up) ∧
    (0 ≤ tal2_start cut spacer → tal2_start cut spacer ≤ tal2_end down →
      tal2_end down ≤ (seq.length : Int) →
      ((createTalPair seq sid cut up down spacer).tal2Length : Int) =
        tal2_end down - tal2_start cut spacer) := by
  refine ⟨rfl, rfl, ?_, ?_⟩
  · intro h1 h2 h3
    exact pySlice_length_of_bounds h1 h2 h3
  · intro h1 h2 h3
    exact pySlice_length_of_bounds h1 h2 h3

/-- Witness for C5 (amended) on an in-bounds record of `"TCCA"`: both length
fields equal the corresponding differences. -/
theorem C5_lengths_amended_witness :
    ((createTalPair "TCCA".toList "id" 1 0 3 1).tal1Length : Int) =
      tal1_end 1 1 - tal1_start 0 ∧
    ((createTalPair "TCCA".toList "id" 1 0 3 1).tal2Length : Int) =
      tal2_end 3 - tal2_start 1 1 :=
  ⟨(C5_lengths_amended "TCCA".toList "id" 1 0 3 1).2.2.1 (by decide) (by decide) (by decide),
    (C5_lengths_amended "TCCA".toList "id" 1 0 3 1).2.2.2 (by decide) (by decide) (by decide)⟩

/-- C6: zero-candidate boundaries.  A sequence shorter than `min_dist` yields
zero candidates (in either mode); a `filter_base` failing the edge guard
(`filter_base - max_dist//2 < 0` or `filter_base + (max_dist+1)//2 + 1 >
length`) yields zero candidates for that upstream base; and with such a
`filter_base` the whole enumeration (over valid bases) ends empty with no
error raised. -/
theorem C6_zero_candidate_boundaries :
    (∀ (seq : List Char) (c : Config), (seq.length : Int) < c.min_dist →
      (talEnum seq c).1 = []) ∧
    (∀ (seq : List Char) (c : Config) (fb : Int) (ub db : Char),
      (fb - pydiv c.max_dist 2 < 0 ∨
        fb + pydiv (c.max_dist + 1) 2 + 1 > (seq.length : Int)) →
      filteredQuads seq c fb ub db = []) ∧
    (∀ (seq : List Char) (c : Config) (fb : Int), c.filter_base = some fb →
      (∀ b ∈ c.upstream_bases, (COMPLEMENT b).isSome) →
      (fb - pydiv c.max_dist 2 < 0 ∨
        fb + pydiv (c.max_dist + 1) 2 + 1 > (seq.length : Int)) →
      talEnum seq c = ([], none)) := by
  have hguard : ∀ (seq : List Char) (c : Config) (fb : Int) (ub db : Char),
      (fb - pydiv c.max_dist 2 < 0 ∨
        fb + pydiv (c.max_dist + 1) 2 + 1 > (seq.length : Int)) →
      filteredQuads seq c fb ub db = [] := by
    intro seq c fb ub db h
    unfold filteredQuads
    rw [if_pos h]
  refine ⟨?_, hguard, ?_⟩
  · intro seq c hlen
    rw [List.eq_nil_iff_forall_not_mem]
    rintro ⟨ub, db, qd⟩ h
    obtain ⟨-, -, hq⟩ := mem_talEnum h
    unfold quadsForBase at hq
    cases hfb : c.filter_base with
    | none =>
      rw [hfb] at hq
      simp only at hq
      obtain ⟨h1, h2, h3, -, -, h5, -, -, -, -, -⟩ := unfilteredQuads_mem hq
      omega
    | some fb =>
      rw [hfb] at hq
      simp only at hq
      obtain ⟨hg, -, hu, hd, -, -⟩ := mem_filteredQuads hq
      obtain ⟨hu1, hu2, -⟩ := mem_findAll_single hu
      obtain ⟨hd1, hd2, -⟩ := mem_findAll_single hd
      have hmin := pydiv_two_add c.min_dist
      have hmax := pydiv_two_add c.max_dist
      omega
  · intro seq c fb hf hv h
    refine talEnumAux_nil ?_ c.upstream_bases hv
    intro b d hd
    rw [quadsForBase_some hf]
    exact hguard seq c fb b d h

/-- Witness for C6: a length-2 sequence with `min_dist = 3` gives the empty
enumeration; `filter_base = 0` with `max_dist = 5` fails the edge guard and
gives zero candidates and an error-free empty run. -/
theorem C6_zero_candidate_boundaries_witness :
    (talEnum "TC".toList cfgBoundary).1 = [] ∧
    filteredQuads "TCCCCCA".toList cfgFilteredEdge 0 'T' 'A' = [] ∧
    talEnum "TCCCCCA".toList cfgFilteredEdge = ([], none) :=
  ⟨C6_zero_candidate_boundaries.1 "TC".toList cfgBoundary (by decide),
    C6_zero_candidate_boundaries.2.1 "TCCCCCA".toList cfgFilteredEdge 0 'T' 'A' (by decide),
    C6_zero_candidate_boundaries.2.2 "TCCCCCA".toList cfgFilteredEdge 0 rfl (by decide)
      (by decide)⟩

/-- C7: for every record emitted in either mode, the sequence character at
`up_pos` is the chosen upstream base and the character at `down_pos` is its
complement under `COMPLEMENT` (A↔T, C↔G). -/
theorem C7_anchor_bases (seq : List Char) (c : Config) (ub db : Char) (qd : TalQuad)
    (h : (ub, db, qd) ∈ (talEnum seq c).1) :
    pyIndex seq qd.up = some ub ∧ pyIndex seq qd.down = some db ∧
    COMPLEMENT ub = some db := by
  obtain ⟨-, hcomp, hq⟩ := mem_talEnum h
  unfold quadsForBase at hq
  cases hfb : c.filter_base with
  | some fb =>
    rw [hfb] at hq
    simp only at hq
    obtain ⟨-, -, hu, hd, -, -⟩ := mem_filteredQuads hq
    exact ⟨(mem_findAll_single hu).2.2, (mem_findAll_single hd).2.2, hcomp⟩
  | none =>
    rw [hfb] at hq
    simp only at hq
    obtain ⟨h1, h2, -, h3, h4, -, -, -, -, -, -⟩ := unfilteredQuads_mem hq
    exact ⟨pyIndex_of_getElem h1 h3, pyIndex_of_getElem h2 h4, hcomp⟩

/-- Witness for C7 at the concrete emitted record of `"TCCA"`: index 0 holds
the upstream base `T` and index 3 its complement `A`. -/
theorem C7_anchor_bases_witness :
    pyIndex "TCCA".toList (0 : Int) = some 'T' ∧
    pyIndex "TCCA".toList (3 : Int) = some 'A' ∧
    COMPLEMENT 'T' = some 'A' := by
  have h := C7_anchor_bases "TCCA".toList cfgBoundary 'T' 'A' ⟨1, 0, 3, 1⟩ (by decide)
  exact h

/-- Two back-to-back materializations of the generator from the same
sequence and configuration (each run re-creating the scan state afresh). -/
def talEnumTwice (seq : List Char) (c : Config) :
    (List (Char × Char × TalQuad) × Option String) ×
      (List (Char × Char × TalQuad) × Option String) :=
  (talEnum seq c, talEnum seq c)

/-- C8: the enumeration is a deterministic pure function of the sequence and
configuration.  The scan's only mutable state, the lookback queue, is created
fresh inside each run (`unfilteredQuads` starts `scanAux` from the empty
queue), so running the enumeration twice on the same inputs produces two
identical ordered outputs, and equal inputs give equal outputs. -/
theorem C8_deterministic_pure (seq : List Char) (c : Config) :
    (talEnumTwice seq c).1 = (talEnumTwice seq c).2 ∧
    ∀ (seq2 : List Char) (c2 : Config), seq = seq2 → c = c2 →
      talEnum seq c = talEnum seq2 c2 :=
  ⟨rfl, fun seq2 c2 h1 h2 => by rw [h1, h2]⟩

/-- Witness for C8 at a concrete run. -/
theorem C8_deterministic_pure_witness :
    (talEnumTwice "TCCA".toList cfgBoundary).1 = (talEnumTwice "TCCA".toList cfgBoundary).2 ∧
    talEnum "TCCA".toList cfgBoundary = talEnum "TCCA".toList cfgBoundary :=
  ⟨(C8_deterministic_pure "TCCA".toList cfgBoundary).1,
    (C8_deterministic_pure "TCCA".toList cfgBoundary).2 _ _ rfl rfl⟩

/-- Module-level names bound in `api.py`: its five imported names and its
three top-level definitions (plus the class).  `logger` is not among them,
so the `logger.info` calls inside `run` reference an undefined name. -/
def apiModuleGlobals : List String :=
  ["Path", "List", "Optional", "deque", "pd", "SeqIO", "COMPLEMENT", "findAll", "FindTALTask"]

/-- Whether the name `logger` is bound at module level in `api.py`. -/
def loggerDefined : Bool := apiModuleGlobals.contains "logger"

/-- Outcome of `FindTALTask.run`: a raised `FileNotFoundError`, some other
raised exception, or a normal return with the record table. -/
inductive RunResult where
  | fileNotFoundError (msg : String)
  | raisedException (msg : String)
  | ok (records : List TalPair)
deriving DecidableEq

/-- Embedding of `FindTALTask.run`.  The abstract FASTA input is `none` when
`open` raises `FileNotFoundError` (re-raised as such), `some none` when the
file opens but `next(SeqIO.parse(f, "fasta"))` raises `StopIteration` (no
record; caught by `except Exception` and re-raised), and
`some (some (sid, chars))` when a first record parses.  In that last case the
`try` block next executes `logger.info(...)`; when `logger` is undefined at
module level this raises `NameError`, which the `except Exception` handler
re-raises as `Exception("Error reading FASTA file: ...")`.  Only when
`logger` is defined does `run` proceed to the enumeration (uppercasing the
record sequence) and return the record table; a `KeyError` escaping the
enumeration loop propagates out of `run` uncaught. -/
def runTask (file : Option (Option (String × List Char))) (c : Config) : RunResult :=
  match file with
  | none => .fileNotFoundError "FASTA file not found"
  | some none => .raisedException "Error reading FASTA file: StopIteration"
  | some (some (sid, chars)) =>
    if loggerDefined then
      match talRecords (chars.map Char.toUpper) sid c with
      | (recs, none) => .ok recs
      | (_, some e) => .raisedException e
    else
      .raisedException "Error reading FASTA file: NameError: name logger is not defined"

/-- C9: `FindTALTask.run` raises an exception for every input and never
returns a record table: a missing file raises `FileNotFoundError`, and once a
first FASTA record is parsed the undefined name `logger` raises a `NameError`
that the handler re-raises as `Exception("Error reading FASTA file: ...")`,
so `run` never produces candidate records. -/
theorem C9_run_always_raises :
    (∀ (file : Option (Option (String × List Char))) (c : Config) (recs : List TalPair),
      runTask file c ≠ RunResult.ok recs) ∧
    (∀ c : Config, runTask none c = RunResult.fileNotFoundError "FASTA file not found") ∧
    (∀ (c : Config) (sid : String) (chars : List Char),
      runTask (some (some (sid, chars))) c = RunResult.raisedException
        "Error reading FASTA file: NameError: name logger is not defined") := by
  refine ⟨?_, fun _ => rfl, fun _ _ _ => rfl⟩
  intro file c recs h
  rcases file with _ | ff
  · exact RunResult.noConfusion h
  · rcases ff with _ | p
    · exact RunResult.noConfusion h
    · rcases p with ⟨sid, chars⟩
      exact RunResult.noConfusion h

/-- Witness for C9 at concrete inputs: a parsed record still ends in the
re-raised `NameError`, and it is not a normal return. -/
theorem C9_run_always_raises_witness :
    runTask (some (some ("id", "TCCA".toList))) cfgBoundary ≠ RunResult.ok [] ∧
    runTask none cfgBoundary = RunResult.fileNotFoundError "FASTA file not found" ∧
    runTask (some (some ("id", "TCCA".toList))) cfgBoundary = RunResult.raisedException
      "Error reading FASTA file: NameError: name logger is not defined" :=
  ⟨C9_run_always_raises.1 (some (some ("id", "TCCA".toList))) cfgBoundary [],
    C9_run_always_raises.2.1 cfgBoundary,
    C9_run_always_raises.2.2 cfgBoundary "id" "TCCA".toList⟩

/-- C10: in unfiltered mode an accepted anchor pair contributes records only
when `down_pos - up_pos ≥ 2*(min_dist//2) + 1` (the cut loop
`range(up + min_dist//2, down - min_dist//2)` is empty otherwise); in
particular — second conjunct, with even `min_dist = max_dist = 4` on
`"TCCCA"`, whose anchors at 0 and 4 sit at distance exactly `min_dist` and
carry the right bases — such a pair yields zero records even though the
distance satisfies the `min_dist ≤ distance` bound. -/
theorem C10_cut_loop_lower_bound :
    (∀ (seq : List Char) (c : Config) (ub db : Char) (qd : TalQuad),
      c.filter_base = none → (ub, db, qd) ∈ (talEnum seq c).1 →
      2 * pydiv c.min_dist 2 + 1 ≤ qd.down - qd.up) ∧
    (cfgEven.min_dist = 4 ∧ cfgEven.min_dist % 2 = 0 ∧
      "TCCCA".toList[0]? = some 'T' ∧ "TCCCA".toList[4]? = some 'A' ∧
      cfgEven.min_dist ≤ (4 : Int) - 0 ∧ (4 : Int) - 0 ≤ cfgEven.max_dist ∧
      talEnum "TCCCA".toList cfgEven = ([], none)) := by
  constructor
  · intro seq c ub db qd hf h
    obtain ⟨-, -, hq⟩ := mem_talEnum h
    rw [quadsForBase_none hf] at hq
    obtain ⟨-, -, -, -, -, -, -, -, -, hc1, hc2⟩ := unfilteredQuads_mem hq
    omega
  · exact ⟨rfl, rfl, rfl, rfl, by decide, by decide, by decide⟩

/-- Witness for C10 applying the bound at the concrete emitted record of
`"TCCA"` under `min_dist = 3`: `2*(3//2) + 1 = 3 ≤ 3`. -/
theorem C10_cut_loop_lower_bound_witness :
    2 * pydiv cfgBoundary.min_dist 2 + 1 ≤ (3 : Int) - 0 :=
  C10_cut_loop_lower_bound.1 "TCCA".toList cfgBoundary 'T' 'A' ⟨1, 0, 3, 1⟩ rfl (by decide)

/-- Witness for C3 at a concrete quadruple. -/
theorem C3_record_builder_fields_witness :
    (createTalPair "TCCA".toList "id" 1 0 3 1).tal1Start = 0 + 1 ∧
    tal1_end 1 1 = 1 - pydiv 1 2 ∧
    tal2_start 1 1 = 1 + pydiv (1 + 1) 2 - 1 ∧
    tal2_end 3 = 3 ∧
    (createTalPair "TCCA".toList "id" 1 0 3 1).tal2StartReported = tal2_end 3 - 1 ∧
    (createTalPair "TCCA".toList "id" 1 0 3 1).spacerRange =
      toString (tal1_end 1 1) ++ "-" ++ toString (tal2_start 1 1) ∧
    (createTalPair [] "x" 10 0 20 4).tal2StartReported ≠ tal2_start 10 4 :=
  C3_record_builder_fields "TCCA".toList "id" 1 0 3 1
